import Mathlib

/-
Verification of the job-orchestration core of the `bun-yt-clipper` server
(`src/server.ts`) against its natural-language specification.

Strings manipulated by the parsing helpers are modelled as `List Char`;
JavaScript numbers appearing in the claims are modelled as `Nat`/`Int`
(all claim-relevant values are integral), and the floating-point
percentages parsed from yt-dlp output as exact rationals.  A JavaScript
number that may be `NaN` (the result of `parseInt` on a non-numeric
string) is modelled as `Option Int`, `none` standing for `NaN`.
-/

namespace YTC

/-! ## String utilities (JavaScript primitives used by `server.ts`) -/

/-- JavaScript `String.prototype.split(sep)` for a one-character separator,
accumulator version. -/
def splitOnCharAux (sep : Char) : List Char → List Char → List (List Char)
  | [], acc => [acc.reverse]
  | c :: cs, acc =>
    if c = sep then acc.reverse :: splitOnCharAux sep cs []
    else splitOnCharAux sep cs (c :: acc)

/-- JavaScript `str.split(sep)` for a one-character separator. -/
def splitOnChar (sep : Char) (cs : List Char) : List (List Char) :=
  splitOnCharAux sep cs []

/-- Numeric value of a list of decimal digit characters. -/
def digitsVal (ds : List Char) : Nat :=
  ds.foldl (fun a c => a * 10 + (c.toNat - 48)) 0

/-- Leading-digit parse: the maximal leading run of decimal digits, or `none`
if there is none. -/
def parseDigits (cs : List Char) : Option Nat :=
  let ds := cs.takeWhile (·.isDigit)
  if ds.isEmpty then none else some (digitsVal ds)

/-- JavaScript `parseInt(str)` (radix 10): skip leading whitespace, an
optional sign, then parse the maximal run of decimal digits; `NaN`
(modelled as `none`) when no digit is found. -/
def parseIntJS (cs : List Char) : Option Int :=
  match cs.dropWhile (·.isWhitespace) with
  | [] => none
  | c :: rest =>
    if c = '-' then (parseDigits rest).map (fun n => -(n : Int))
    else if c = '+' then (parseDigits rest).map (fun n => (n : Int))
    else (parseDigits (c :: rest)).map (fun n => (n : Int))

/-- JavaScript `String.prototype.trim`. -/
def trimChars (cs : List Char) : List Char :=
  ((cs.dropWhile Char.isWhitespace).reverse.dropWhile Char.isWhitespace).reverse

/-! ## Time helpers (`timeToSeconds`, `formatSeconds`, `server.ts:78-96`) -/

/-- JavaScript `NaN`-propagating comparison `a >= b` (false when either
operand is `NaN`). -/
def jsGE : Option Int → Option Int → Bool
  | some a, some b => decide (b ≤ a)
  | _, _ => false

/-- JavaScript `NaN`-propagating subtraction. -/
def jsSub : Option Int → Option Int → Option Int
  | some a, some b => some (a - b)
  | _, _ => none

/-- JavaScript `NaN`-propagating comparison `a > k` (false when `a` is
`NaN`). -/
def jsGT : Option Int → Int → Bool
  | some a, k => decide (k < a)
  | none, _ => false

/-- `timeToSeconds` (`server.ts:78-86`): split on `:`; with two parts the
value is `m*60+s`, with three `h*3600+m*60+s`, otherwise the function
throws `"Invalid time format"`.  `parseInt` results may be `NaN`
(`none`), which propagates through the arithmetic. -/
def timeToSeconds (cs : List Char) : Except String (Option Int) :=
  match splitOnChar ':' cs with
  | [p0, p1] =>
    .ok (do pure ((← parseIntJS p0) * 60 + (← parseIntJS p1)))
  | [p0, p1, p2] =>
    .ok (do pure ((← parseIntJS p0) * 3600 + (← parseIntJS p1) * 60 + (← parseIntJS p2)))
  | _ => .error "Invalid time format"

/-- Decimal digit string of a natural number (JavaScript `Number#toString`
on the non-negative integers that occur here). -/
def natChars (n : Nat) : List Char := (Nat.repr n).toList

/-- JavaScript `String.prototype.padStart(2, "0")`. -/
def pad2 (cs : List Char) : List Char :=
  List.replicate (2 - cs.length) '0' ++ cs

/-- `formatSeconds` (`server.ts:88-96`) on the non-negative integral inputs
it receives: `HH:MM:SS` when hours are positive, else `MM:SS`, each part
zero-padded to two characters. -/
def formatSeconds (seconds : Nat) : List Char :=
  let hours := seconds / 3600
  let minutes := (seconds % 3600) / 60
  let secs := seconds % 60
  if 0 < hours then
    pad2 (natChars hours) ++ ':' :: (pad2 (natChars minutes) ++ ':' :: pad2 (natChars secs))
  else
    pad2 (natChars minutes) ++ ':' :: pad2 (natChars secs)

/-- The character class `[0-5]`. -/
def isZeroToFive (c : Char) : Bool :=
  c = '0' || c = '1' || c = '2' || c = '3' || c = '4' || c = '5'

/-- The validation regex `^\d+:[0-5]\d(:[0-5]\d)?$` of `ClipRequestSchema`
(`server.ts:67-68`): one or more digits, a colon, a digit `0`-`5` and a
digit, optionally followed by a second such `:[0-5]\d` group. -/
def timePat (cs : List Char) : Bool :=
  (decide (cs.takeWhile (·.isDigit) ≠ [])) &&
    match cs.dropWhile (·.isDigit) with
    | r0 :: a :: b :: tail =>
      decide (r0 = ':') && isZeroToFive a && b.isDigit &&
        (match tail with
         | [] => true
         | t0 :: c :: d :: rest2 =>
           decide (t0 = ':') && rest2.isEmpty && isZeroToFive c && d.isDigit
         | _ => false)
    | _ => false

/-! ## Data model (`server.ts:29-62`) -/

/-- The `status` field of `DownloadProgress` (`server.ts:31`). -/
inductive Status
  | downloading
  | processing
  | completed
  | error
deriving DecidableEq, Repr

/-- Whether a status is terminal (`completed` or `error`). -/
def Status.isTerminal : Status → Bool
  | .completed => true
  | .error => true
  | _ => false

/-- The `DownloadProgress` record (`server.ts:30-36`). -/
structure ProgressRec where
  status : Status
  progress : Int
  message : String
  filename : Option String := none
  download_url : Option String := none
deriving DecidableEq, Repr

/-- The in-memory progress store `downloadProgress : Map<string, DownloadProgress>`
(`server.ts:61`), modelled as an association list with the `Map`
overwrite-on-set semantics. -/
def Store := List (String × ProgressRec)
deriving DecidableEq, Repr

/-- `Map.prototype.get`. -/
def Store.get : Store → String → Option ProgressRec
  | [], _ => none
  | (k, v) :: rest, key => if k = key then some v else Store.get rest key

/-- `Map.prototype.set`: replace the entry in place when the key exists,
otherwise append. -/
def Store.set : Store → String → ProgressRec → Store
  | [], key, v => [(key, v)]
  | (k, w) :: rest, key, v =>
    if k = key then (key, v) :: rest else (k, w) :: Store.set rest key v

/-! ## The clip request handler, synchronous part (`handleDownloadClip`,
`server.ts:342-451`) -/

/-- A clip request body after JSON parsing (`ClipRequestSchema` fields,
`server.ts:65-69`). -/
structure ClipRequest where
  url : String
  start_time : List Char
  end_time : List Char

/-- The HTTP response of `handleDownloadClip`: a 400 with zod details, a
400 with a specific message, a 200 success body carrying the job id and
the predicted artifact name/URL, or a 500. -/
inductive ClipResponse
  | invalidRequest
  | badRequest (msg : String)
  | success (download_id filename download_url : String)
  | serverError (msg : String)
deriving DecidableEq, Repr

/-- Whether a response is a synchronous 400 validation rejection. -/
def ClipResponse.isValidation400 : ClipResponse → Bool
  | .invalidRequest => true
  | .badRequest _ => true
  | _ => false

/-- The record written at job creation (`server.ts:379-383`). -/
def startingRec : ProgressRec :=
  { status := .downloading, progress := 0, message := "Starting download..." }

/-- Synchronous part of `handleDownloadClip` (`server.ts:342-451`): schema
validation (`urlOk` stands for the verdict of zod's black-box
`z.string().url()` check), time parsing, the ordering and duration
checks, and on success the job id allocation, initial store write and
immediate response.  Returns the response, the store after the handler
returns, and the id of the spawned background pipeline (if any).
`freshId` stands for the value produced by `generateId()`. -/
def handleDownloadClip (urlOk : Bool) (freshId : String) (r : ClipRequest)
    (store : Store) : ClipResponse × Store × Option String :=
  if ¬ (urlOk && timePat r.start_time && timePat r.end_time) then
    (.invalidRequest, store, none)
  else
    match timeToSeconds r.start_time, timeToSeconds r.end_time with
    | .error e, _ => (.serverError ("Error processing video: " ++ e), store, none)
    | .ok _, .error e => (.serverError ("Error processing video: " ++ e), store, none)
    | .ok startSeconds, .ok endSeconds =>
      if jsGE startSeconds endSeconds then
        (.badRequest "Start time must be before end time", store, none)
      else if jsGT (jsSub endSeconds startSeconds) 600 then
        (.badRequest "Clip duration cannot exceed 10 minutes", store, none)
      else
        (.success freshId (freshId ++ ".mp4") ("/api/download-file/" ++ freshId ++ ".mp4"),
         store.set freshId startingRec,
         some freshId)

/-! ## Percent extraction from yt-dlp output (`server.ts:188-201`)

The stderr handler matches each chunk against `/(\d+\.?\d*)%/` and
`parseFloat`s the first capture.  Floating-point percentages are modelled
as exact rationals. -/

/-- Attempt the regex `\d+\.?\d*%` at the head of a character list,
returning the integer and fraction digit groups of the matched number.
The digit runs are maximal, which coincides with the regex engine's
greedy-with-backtracking behaviour for this pattern. -/
def matchNumAt (cs : List Char) : Option (List Char × List Char) :=
  let ds := cs.takeWhile (·.isDigit)
  if ds.isEmpty then none
  else
    match cs.drop ds.length with
    | '%' :: _ => some (ds, [])
    | '.' :: r2 =>
      let fs := r2.takeWhile (·.isDigit)
      match r2.drop fs.length with
      | '%' :: _ => some (ds, fs)
      | _ => none
    | _ => none

/-- Leftmost match of `/(\d+\.?\d*)%/` in a line: scan positions left to
right and return the first successful match's digit groups. -/
def findPercent : List Char → Option (List Char × List Char)
  | [] => none
  | c :: cs =>
    match matchNumAt (c :: cs) with
    | some m => some m
    | none => findPercent cs

/-- A decimal literal `intPart.fracDigits` as captured by the percentage
regex.  `parseFloat` of the capture is modelled as the exact rational
value of the literal. -/
structure Decimal where
  intPart : Nat
  fracDigits : List Char
deriving DecidableEq, Repr

/-- The rational value of a captured decimal percentage. -/
def Decimal.val (d : Decimal) : ℚ :=
  (d.intPart : ℚ) + (digitsVal d.fracDigits : ℚ) / (10 : ℚ) ^ d.fracDigits.length

/-- Numerator of `val` over the denominator `10 ^ fracDigits.length`. -/
def Decimal.num (d : Decimal) : Nat :=
  d.intPart * 10 ^ d.fracDigits.length + digitsVal d.fracDigits

/-- Denominator of `val`. -/
def Decimal.den (d : Decimal) : Nat := 10 ^ d.fracDigits.length

/-- `Math.floor(percent * 0.5)` computed exactly on the decimal value by
integer arithmetic; `floorHalf_eq` below proves it equal to
`⌊val * (1/2)⌋`. -/
def Decimal.floorHalf (d : Decimal) : Int :=
  ((d.num / (2 * d.den) : Nat) : Int)

/-- Executable comparison of decimal values by cross-multiplication;
`decLe_iff` below proves it decides `val ≤ val`. -/
def Decimal.decLe (d e : Decimal) : Bool :=
  decide (d.num * e.den ≤ e.num * d.den)

/-- The percentage reported by one stderr chunk, if any. -/
def extractPercent (line : List Char) : Option Decimal :=
  (findPercent line).map fun m => { intPart := digitsVal m.1, fracDigits := m.2 }

/-- JavaScript `Number.prototype.toFixed(1)` on the non-negative decimals
that occur here: rounding to one decimal place, computed exactly by
integer arithmetic (`m` is `⌊val * 10 + 1/2⌋`). -/
def toFixed1 (d : Decimal) : String :=
  let m : Nat := (20 * d.num + d.den) / (2 * d.den)
  toString (m / 10) ++ "." ++ toString (m % 10)

/-! ## The clip pipeline as a trace of store writes and publishes
(`server.ts:169-220` and `server.ts:386-437`) -/

/-- An observable action of the pipeline on the shared state: a store
write (`downloadProgress.set`) or a fan-out publish
(`broadcastProgress`). -/
inductive Action
  | setStore (id : String) (r : ProgressRec)
  | publish (id : String)
deriving DecidableEq, Repr

/-- Result of spawning an external process: an exit code delivered to the
`close` handler, or a spawn failure delivered to the `error` handler. -/
inductive ProcResult
  | exited (code : Int)
  | spawnError (msg : String)
deriving DecidableEq, Repr

/-- Behaviour of the external tools during one run of the clip pipeline:
the stderr chunks and termination of the yt-dlp process, the result of
the first ffmpeg invocation and the exit code of the re-encode retry
(consulted only when the first invocation exits non-zero). -/
structure PipeEnv where
  dlLines : List (List Char)
  dlResult : ProcResult
  cutResult : ProcResult
  cutRetryCode : Int
deriving DecidableEq, Repr

/-- The record written for a reported download percentage
(`server.ts:193-199`): progress `Math.min(Math.floor(percent * 0.5), 50)`. -/
def dlRec (p : Decimal) : ProgressRec :=
  { status := .downloading
    progress := min p.floorHalf 50
    message := "Downloading... " ++ toFixed1 p ++ "%" }

/-- The record of C7's download-progress write, stated with the claim's
`min (floor (p * 0.5)) 50` formula. -/
def dlRecSpec (d : Decimal) : ProgressRec where
  status := .downloading
  progress := min (⌊d.val * (1 / 2 : ℚ)⌋) 50
  message := "Downloading... " ++ toFixed1 d ++ "%"

/-- The record written when yt-dlp exits 0 (`server.ts:206-210`). -/
def processingRec : ProgressRec :=
  { status := .processing, progress := 50, message := "Processing video..." }

/-- The record written before the cut stage (`server.ts:397-401`). -/
def cuttingRec : ProgressRec :=
  { status := .processing, progress := 60, message := "Cutting video..." }

/-- The record written on pipeline success (`server.ts:418-424`). -/
def doneRec (id : String) : ProgressRec :=
  { status := .completed, progress := 100, message := "Done!"
    filename := some (id ++ ".mp4")
    download_url := some ("/api/download-file/" ++ id ++ ".mp4") }

/-- The record written in the pipeline's catch block (`server.ts:430-434`). -/
def errRec (msg : String) : ProgressRec :=
  { status := .error, progress := 0, message := msg }

/-- Actions performed by the yt-dlp stderr handler (`server.ts:188-202`):
for each chunk whose text contains a percentage, a store write followed
by a publish. -/
def dlEvents (id : String) (lines : List (List Char)) : List Action :=
  lines.flatMap fun l =>
    match extractPercent l with
    | some p => [.setStore id (dlRec p), .publish id]
    | none => []

/-- The message of the rejection produced by `runYTDLPWithProgress` when
the download does not succeed (`server.ts:213-218`). -/
def dlFailMsg : ProcResult → String
  | .exited c => "Download failed with code " ++ toString c
  | .spawnError m => m

/-- Outcome of `runFFmpeg` (`server.ts:222-271`): exit 0 resolves; a
non-zero exit triggers exactly one re-encode retry whose non-zero exit
rejects; a spawn error rejects without retry. -/
def ffmpegOutcome (first : ProcResult) (retryCode : Int) : Except String Unit :=
  match first with
  | .exited 0 => .ok ()
  | .exited _ =>
    if retryCode = 0 then .ok ()
    else .error ("FFmpeg failed with code " ++ toString retryCode)
  | .spawnError m => .error m

/-- Actions performed after the cut stage: the success write
(`server.ts:418-425`) or the catch-block error write (`server.ts:429-436`)
when both ffmpeg invocations failed. -/
def cutActions (id : String) (env : PipeEnv) : List Action :=
  match ffmpegOutcome env.cutResult env.cutRetryCode with
  | .ok _ => [.setStore id (doneRec id), .publish id]
  | .error m => [.setStore id (errRec m), .publish id]

/-- Actions performed after the yt-dlp process terminates: on success the
`processing` writes of `server.ts:206-211` and `server.ts:397-402`
followed by the cut stage, on failure the catch-block error write. -/
def pipelineTail (id : String) (env : PipeEnv) : List Action :=
  match env.dlResult with
  | .exited 0 =>
    [.setStore id processingRec, .publish id,
     .setStore id cuttingRec, .publish id] ++ cutActions id env
  | res => [.setStore id (errRec (dlFailMsg res)), .publish id]

/-- The trace of store writes and publishes performed by the background
pipeline (the async IIFE of `server.ts:386-437`) for job `id` under
external behaviour `env`. -/
def runPipeline (id : String) (env : PipeEnv) : List Action :=
  dlEvents id env.dlLines ++ pipelineTail id env

/-- The full sequence of store writes and publishes for one accepted clip
job: the handler's initial write (`server.ts:379-383`) followed by the
background pipeline. -/
def fullTrace (id : String) (env : PipeEnv) : List Action :=
  .setStore id startingRec :: runPipeline id env

/-- The sequence of records written by a trace. -/
def writeRecs (t : List Action) : List ProgressRec :=
  t.filterMap fun a =>
    match a with
    | .setStore _ r => some r
    | .publish _ => none

/-- The progress values of the non-`error` records written by a trace. -/
def nonErrorProgressValues (t : List Action) : List Int :=
  t.filterMap fun a =>
    match a with
    | .setStore _ r => if r.status = .error then none else some r.progress
    | .publish _ => none

/-! ## WebSocket fan-out (`clients`, `broadcastProgress`, `server.ts:62`,
`server.ts:274-292`, `server.ts:748-765`) -/

/-- An observer: a WebSocket connection, identified by `oid` (object
identity) and carrying its `readyState === WebSocket.OPEN` verdict at
send time. -/
structure Observer where
  oid : Nat
  isOpen : Bool
deriving DecidableEq, Repr

/-- The `clients : Map<string, Set<ServerWebSocket>>` table
(`server.ts:62`), a job id keyed association list of observer sets. -/
def Clients := List (String × List Observer)
deriving DecidableEq, Repr

/-- `Map.prototype.get` on the clients table. -/
def Clients.get : Clients → String → Option (List Observer)
  | [], _ => none
  | (k, s) :: rest, key => if k = key then some s else Clients.get rest key

/-- `Set.prototype.add` into the set of a given job id, creating the set
when absent (the `open` WebSocket handler body, `server.ts:752-757`). -/
def Clients.addTo : Clients → String → Observer → Clients
  | [], id, w => [(id, [w])]
  | (k, s) :: rest, id, w =>
    if k = id then (k, if w ∈ s then s else s ++ [w]) :: rest
    else (k, s) :: Clients.addTo rest id w

/-- `Set.prototype.delete` from the set of a given job id, when that set
exists (the `close` WebSocket handler body, `server.ts:762-764`). -/
def Clients.removeFrom : Clients → String → Observer → Clients
  | [], _, _ => []
  | (k, s) :: rest, id, w =>
    if k = id then (k, s.filter (· ≠ w)) :: rest
    else (k, s) :: Clients.removeFrom rest id w

/-- The WebSocket `open` handler (`server.ts:749-758`): attach the
connection to the job id read from its query parameter, if present. -/
def wsOpen (cl : Clients) (idOpt : Option String) (w : Observer) : Clients :=
  match idOpt with
  | none => cl
  | some id => cl.addTo id w

/-- The WebSocket `close` handler (`server.ts:759-765`): detach the
connection from its job id's set, if both exist. -/
def wsClose (cl : Clients) (idOpt : Option String) (w : Observer) : Clients :=
  match idOpt with
  | none => cl
  | some id => cl.removeFrom id w

/-- The message object serialized by `broadcastProgress`
(`server.ts:281-285`). -/
structure WsMsg where
  msgType : String
  download_id : String
  data : ProgressRec
deriving DecidableEq, Repr

/-- `broadcastProgress` (`server.ts:274-292`): look up the current record
(returning with no deliveries when absent), look up the observer set
(returning with no deliveries when absent), and send the message to
every member whose connection is open.  The result is the list of
deliveries performed. -/
def broadcastProgress (store : Store) (cl : Clients) (id : String) :
    List (Observer × WsMsg) :=
  match store.get id with
  | none => []
  | some progress =>
    match cl.get id with
    | none => []
    | some clientSet =>
      (clientSet.filter (·.isOpen)).map
        (fun w => (w, { msgType := "progress", download_id := id, data := progress }))

/-! ## Subtitle-to-text conversion (`convertSubtitleToText`,
`server.ts:633-662`) -/

/-- Whether a trimmed line matches `/^\d+$/`. -/
def isSeqNum (cs : List Char) : Bool :=
  (decide (cs ≠ [])) && cs.all (·.isDigit)

/-- Whether a trimmed line contains the timing arrow `-->`. -/
def containsArrow (cs : List Char) : Bool :=
  decide ("-->".toList <:+: cs)

/-- Whether a trimmed line starts with `WEBVTT`, `NOTE` or `STYLE`. -/
def isHeader (cs : List Char) : Bool :=
  List.isPrefixOf "WEBVTT".toList cs || List.isPrefixOf "NOTE".toList cs ||
    List.isPrefixOf "STYLE".toList cs

/-- Split a character list at its first `'>'`, if any. -/
def splitAtGt : List Char → Option (List Char × List Char)
  | [] => none
  | c :: rest =>
    if c = '>' then some ([], rest)
    else (splitAtGt rest).map (fun p => (c :: p.1, p.2))

/-- JavaScript `str.replace(/<[^>]+>/g, "")`: remove every
non-overlapping leftmost match of `<[^>]+>`.  A `<` that starts no match
(next `>` immediately adjacent or absent) is kept and scanning resumes
at the following character. -/
def removeTags : List Char → List Char
  | [] => []
  | c :: cs =>
    if h : c = '<' then
      match h2 : splitAtGt cs with
      | some p =>
        if p.1.isEmpty then c :: removeTags cs
        else removeTags p.2
      | none => c :: removeTags cs
    else c :: removeTags cs
termination_by cs => cs.length
decreasing_by
  · simp
  · have key : ∀ (l : List Char) q, splitAtGt l = some q → q.2.length < l.length := by
      intro l
      induction l with
      | nil => intro q hq; simp [splitAtGt] at hq
      | cons a rest ih =>
        intro q hq
        rw [splitAtGt] at hq
        by_cases ha : a = '>'
        · simp [ha] at hq; subst hq; simp
        · simp only [ha, if_false, Option.map_eq_some'] at hq
          obtain ⟨q', hq', hqq⟩ := hq
          subst hqq
          exact Nat.lt_succ_of_lt (ih q' hq')
    exact Nat.lt_succ_of_lt (key _ _ (by assumption))
  · simp
  · simp

/-- A markup tag in the sense of the regex `<[^>]+>`: some decomposition
of the string into a prefix, an opening angle bracket, a non-empty inner
part free of closing brackets, a closing angle bracket and a suffix. -/
def hasTag (l : List Char) : Prop :=
  ∃ pre inner post, l = pre ++ '<' :: (inner ++ '>' :: post) ∧ inner ≠ [] ∧ '>' ∉ inner

/-- The line loop of `convertSubtitleToText` (`server.ts:636-659`):
`skipNext` and the accumulated `textLines` are threaded through; a line
is appended when it survives all filters, its tag-stripped text is
non-empty and not already present. -/
def subtitleLoop : List (List Char) → Bool → List (List Char) → List (List Char)
  | [], _, acc => acc
  | l :: ls, skipNext, acc =>
    if (trimChars l).isEmpty then subtitleLoop ls skipNext acc
    else if isSeqNum (trimChars l) then subtitleLoop ls true acc
    else if containsArrow (trimChars l) || skipNext then subtitleLoop ls false acc
    else if isHeader (trimChars l) then subtitleLoop ls skipNext acc
    else if removeTags (trimChars l) ≠ [] ∧ removeTags (trimChars l) ∉ acc then
      subtitleLoop ls skipNext (acc ++ [removeTags (trimChars l)])
    else subtitleLoop ls skipNext acc

/-- `convertSubtitleToText` (`server.ts:633-662`): split on newlines, run
the filtering loop, join with newlines. -/
def convertSubtitleToText (content : List Char) : List Char :=
  List.intercalate ['\n'] (subtitleLoop (splitOnChar '\n' content) false [])

/-- The stream of candidate text lines: the lines surviving every filter
of the loop, trimmed and tag-stripped, empties discarded, duplicates
still present.  Same branch structure as `subtitleLoop`, without the
dedup accumulator. -/
def subtitleCandidates : List (List Char) → Bool → List (List Char)
  | [], _ => []
  | l :: ls, skipNext =>
    if (trimChars l).isEmpty then subtitleCandidates ls skipNext
    else if isSeqNum (trimChars l) then subtitleCandidates ls true
    else if containsArrow (trimChars l) || skipNext then subtitleCandidates ls false
    else if isHeader (trimChars l) then subtitleCandidates ls skipNext
    else if removeTags (trimChars l) = [] then subtitleCandidates ls skipNext
    else removeTags (trimChars l) :: subtitleCandidates ls skipNext

/-- Specification-side description of the dedup step, following the
spec's words: keep the first occurrence of each distinct line, in order
of first occurrence. -/
def keepFirsts : List (List Char) → List (List Char)
  | [] => []
  | a :: l => a :: keepFirsts (l.filter (· ≠ a))
termination_by l => l.length
decreasing_by
  exact Nat.lt_succ_of_le (List.length_filter_le _ _)

/-- Dedup relative to an already-seen accumulator; `keepFirsts` is the
`seen = []` instance (bridging lemma below). -/
def keepFirstsFrom (seen : List (List Char)) : List (List Char) → List (List Char)
  | [] => []
  | a :: l =>
    if a ∈ seen then keepFirstsFrom seen l
    else a :: keepFirstsFrom (seen ++ [a]) l

/-! ## Concrete inputs used by witnesses and counterexamples -/

/-- A well-formed request whose start is after its end. -/
def reqLate : ClipRequest :=
  { url := "https://youtu.be/x", start_time := "0:20".toList, end_time := "0:10".toList }

/-- A well-formed request for a 30 second clip. -/
def reqGood : ClipRequest :=
  { url := "https://youtu.be/x", start_time := "0:10".toList, end_time := "0:40".toList }

/-- A yt-dlp stderr chunk reporting 90.0%. -/
def line90 : List Char := "[download]  90.0% of ~10MiB".toList

/-- A yt-dlp stderr chunk reporting 10.0%. -/
def line10 : List Char := "[download]  10.0% of ~10MiB".toList

/-- An execution in which the downloader reports 90% and then 10% and
both external stages succeed. -/
def envDown : PipeEnv :=
  { dlLines := [line90, line10], dlResult := .exited 0, cutResult := .exited 0,
    cutRetryCode := 0 }

/-- An execution with a single progress report and success everywhere. -/
def envOk : PipeEnv :=
  { dlLines := [line90], dlResult := .exited 0, cutResult := .exited 0, cutRetryCode := 0 }

/-- An execution in which the downloader exits with code 1. -/
def envDlFail : PipeEnv :=
  { dlLines := [line90], dlResult := .exited 1, cutResult := .exited 0, cutRetryCode := 0 }

/-- An execution in which both ffmpeg invocations fail. -/
def envCutFail : PipeEnv :=
  { dlLines := [line90], dlResult := .exited 0, cutResult := .exited 1, cutRetryCode := 2 }

/-- A store holding one record for job `"j"`. -/
def storeJ : Store := [("j", startingRec)]

/-- An open observer. -/
def obsOpen : Observer := { oid := 1, isOpen := true }

/-- A closed observer. -/
def obsClosed : Observer := { oid := 2, isOpen := false }

/-- A clients table where both observers are attached to job `"j"`. -/
def clientsJ : Clients := [("j", [obsOpen, obsClosed])]

/-! ## Supporting lemmas -/

theorem Decimal.den_pos (d : Decimal) : 0 < d.den :=
  Nat.pos_pow_of_pos _ (by norm_num)

theorem Decimal.val_eq (d : Decimal) : d.val = (d.num : ℚ) / (d.den : ℚ) := by
  have h : ((10 : ℚ) ^ d.fracDigits.length) ≠ 0 := by positivity
  unfold Decimal.val Decimal.num Decimal.den
  push_cast
  field_simp

theorem Decimal.floorHalf_eq (d : Decimal) : d.floorHalf = ⌊d.val * (1 / 2 : ℚ)⌋ := by
  have hval : d.val * (1 / 2 : ℚ) = ((d.num : ℤ) : ℚ) / (((2 * d.den : ℕ) : ℚ)) := by
    rw [Decimal.val_eq, div_mul_div_comm]
    push_cast
    ring
  rw [hval, Rat.floor_intCast_div_natCast]
  unfold Decimal.floorHalf
  push_cast
  ring

theorem Decimal.floorHalf_nonneg (d : Decimal) : 0 ≤ d.floorHalf :=
  Int.ofNat_nonneg _

theorem Decimal.decLe_iff (d e : Decimal) : d.decLe e = true ↔ d.val ≤ e.val := by
  rw [Decimal.decLe, decide_eq_true_iff, Decimal.val_eq, Decimal.val_eq]
  rw [div_le_div_iff₀ (by exact_mod_cast d.den_pos) (by exact_mod_cast e.den_pos)]
  exact_mod_cast Iff.rfl

theorem Decimal.floorHalf_mono {d e : Decimal} (h : d.val ≤ e.val) :
    d.floorHalf ≤ e.floorHalf := by
  rw [Decimal.floorHalf_eq, Decimal.floorHalf_eq]
  exact Int.floor_mono (by linarith)

theorem Store.get_set_self (st : Store) (k : String) (v : ProgressRec) :
    Store.get (Store.set st k v) k = some v := by
  induction st with
  | nil => simp [Store.set, Store.get]
  | cons hd tl ih =>
    obtain ⟨k', v'⟩ := hd
    by_cases hk : k' = k
    · subst hk; simp [Store.set, Store.get]
    · simp [Store.set, Store.get, hk, ih]

theorem isDigit_not_ws {c : Char} (h : c.isDigit = true) : c.isWhitespace = false := by
  cases hw : c.isWhitespace
  · rfl
  · exfalso
    simp only [Char.isWhitespace, Bool.or_eq_true, decide_eq_true_eq] at hw
    rcases hw with ((h1 | h1) | h1) | h1 <;> subst h1 <;> exact absurd h (by decide)

theorem zeroToFive_isDigit {c : Char} (h : isZeroToFive c = true) : c.isDigit = true := by
  simp only [isZeroToFive, Bool.or_eq_true, decide_eq_true_eq] at h
  rcases h with ((((h | h) | h) | h) | h) | h <;> subst h <;> decide

theorem isDigit_ne {c d : Char} (h : c.isDigit = true) (hd : d.isDigit = false) : c ≠ d :=
  fun he => by rw [he, hd] at h; exact Bool.false_ne_true h

theorem parseIntJS_digits (ds : List Char) (h1 : ds ≠ [])
    (h2 : ∀ c ∈ ds, c.isDigit = true) : parseIntJS ds = some (digitsVal ds) := by
  cases ds with
  | nil => exact absurd rfl h1
  | cons c t =>
    have hc : c.isDigit = true := h2 c (List.mem_cons_self c t)
    have hw : c.isWhitespace = false := isDigit_not_ws hc
    have hm : ¬ (c = '-') := isDigit_ne hc (by decide)
    have hp : ¬ (c = '+') := isDigit_ne hc (by decide)
    have htw : (c :: t).takeWhile (·.isDigit) = c :: t :=
      List.takeWhile_eq_self_iff.mpr (by intro x hx; exact h2 x hx)
    unfold parseIntJS
    rw [List.dropWhile_cons, if_neg (by simp [hw])]
    simp only [hm, hp, if_false]
    unfold parseDigits
    rw [htw]
    simp

theorem splitOnCharAux_not_mem (sep : Char) (xs : List Char) :
    ∀ acc, sep ∉ xs → splitOnCharAux sep xs acc = [acc.reverse ++ xs] := by
  induction xs with
  | nil => intro acc _; simp [splitOnCharAux]
  | cons x t ih =>
    intro acc h
    have hx : ¬ (x = sep) := fun he => h (he ▸ List.mem_cons_self x t)
    rw [splitOnCharAux, if_neg hx, ih _ (fun hm => h (List.mem_cons_of_mem _ hm))]
    simp

theorem splitOnCharAux_append (sep : Char) (xs ys : List Char) :
    ∀ acc, sep ∉ xs → splitOnCharAux sep (xs ++ sep :: ys) acc =
      (acc.reverse ++ xs) :: splitOnCharAux sep ys [] := by
  induction xs with
  | nil => intro acc _; simp [splitOnCharAux]
  | cons x t ih =>
    intro acc h
    have hx : ¬ (x = sep) := fun he => h (he ▸ List.mem_cons_self x t)
    rw [List.cons_append, splitOnCharAux, if_neg hx,
      ih _ (fun hm => h (List.mem_cons_of_mem _ hm))]
    simp

theorem timePat_cases (cs : List Char) (h : timePat cs = true) :
    ∃ ds rest, cs = ds ++ rest ∧ ds ≠ [] ∧ (∀ c ∈ ds, c.isDigit = true) ∧
      ((∃ a b, rest = [':', a, b] ∧ a.isDigit = true ∧ b.isDigit = true) ∨
        (∃ a b c d, rest = [':', a, b, ':', c, d] ∧ a.isDigit = true ∧ b.isDigit = true ∧
          c.isDigit = true ∧ d.isDigit = true)) := by
  refine ⟨cs.takeWhile (·.isDigit), cs.dropWhile (·.isDigit),
    (List.takeWhile_append_dropWhile _ _).symm, ?_, ?_, ?_⟩
  · unfold timePat at h
    rw [Bool.and_eq_true] at h
    exact of_decide_eq_true h.1
  · intro c hc
    exact List.mem_takeWhile_imp hc
  · unfold timePat at h
    rw [Bool.and_eq_true] at h
    have h2 := h.2
    rcases hrest : cs.dropWhile (·.isDigit) with _ | ⟨r0, _ | ⟨a, _ | ⟨b, tail⟩⟩⟩ <;>
      rw [hrest] at h2
    · simp at h2
    · simp at h2
    · simp at h2
    · simp only [Bool.and_eq_true, decide_eq_true_eq] at h2
      obtain ⟨⟨⟨hr0, ha⟩, hb⟩, htail⟩ := h2
      subst hr0
      rcases htail2 : tail with _ | ⟨t0, _ | ⟨c, _ | ⟨d, rest2⟩⟩⟩ <;> rw [htail2] at htail
      · exact Or.inl ⟨a, b, by rw [hrest, htail2], zeroToFive_isDigit ha, hb⟩
      · simp at htail
      · simp at htail
      · simp only [Bool.and_eq_true, decide_eq_true_eq, List.isEmpty_iff] at htail
        obtain ⟨⟨⟨ht0, hr2⟩, hc⟩, hd⟩ := htail
        subst ht0
        subst hr2
        exact Or.inr ⟨a, b, c, d, by rw [hrest, htail2], zeroToFive_isDigit ha, hb,
          zeroToFive_isDigit hc, hd⟩

/-! ## Claim theorems -/

/-- C9: parsing `"1:05:30"` yields `3930` seconds and formatting `3930`
yields `"01:05:30"`; parsing `"2:15"` yields `135` and formatting `135`
yields `"02:15"`. -/
theorem c9_time_roundtrip :
    timeToSeconds "1:05:30".toList = .ok (some 3930) ∧
      formatSeconds 3930 = "01:05:30".toList ∧
      timeToSeconds "2:15".toList = .ok (some 135) ∧
      formatSeconds 135 = "02:15".toList :=
  ⟨rfl, by decide, rfl, by decide⟩

/-- C10: every string accepted by the clip validation pattern
`^\\d+:[0-5]\\d(:[0-5]\\d)?$` parses without throwing: the
`"Invalid time format"` branch of `timeToSeconds` is unreachable under
that precondition and the result is a non-negative integer number of
seconds (in particular not `NaN`). -/
theorem c10_pattern_parses (cs : List Char) (h : timePat cs = true) :
    ∃ n : Int, timeToSeconds cs = .ok (some n) ∧ 0 ≤ n := by
  obtain ⟨ds, rest, hcs, hne, hdig, hshape⟩ := timePat_cases cs h
  subst hcs
  have hds : ':' ∉ ds := fun hm => absurd (hdig _ hm) (by decide)
  rcases hshape with ⟨a, b, hr, ha, hb⟩ | ⟨a, b, c, d, hr, ha, hb, hc, hd⟩
  · subst hr
    have hab : ':' ∉ ([a, b] : List Char) := by
      intro hm
      rcases List.mem_pair.mp hm with he | he
      · exact absurd ha (he ▸ by decide)
      · exact absurd hb (he ▸ by decide)
    have hsplit : splitOnChar ':' (ds ++ ':' :: [a, b]) = [ds, [a, b]] := by
      rw [splitOnChar, splitOnCharAux_append ':' ds [a, b] [] hds,
        splitOnCharAux_not_mem ':' [a, b] [] hab]
      simp
    have hab2 : ∀ x ∈ ([a, b] : List Char), x.isDigit = true := by
      intro x hx
      rcases List.mem_pair.mp hx with he | he <;> subst he <;> assumption
    have hts : timeToSeconds (ds ++ ':' :: [a, b]) =
        .ok (do pure ((← parseIntJS ds) * 60 + (← parseIntJS [a, b]))) := by
      unfold timeToSeconds
      rw [hsplit]
    rw [hts, parseIntJS_digits ds hne hdig, parseIntJS_digits [a, b] (by simp) hab2]
    refine ⟨(digitsVal ds : Int) * 60 + (digitsVal [a, b] : Int), by simp, by positivity⟩
  · subst hr
    have hcd : ':' ∉ ([c, d] : List Char) := by
      intro hm
      rcases List.mem_pair.mp hm with he | he
      · exact absurd hc (he ▸ by decide)
      · exact absurd hd (he ▸ by decide)
    have hab : ':' ∉ ([a, b] : List Char) := by
      intro hm
      rcases List.mem_pair.mp hm with he | he
      · exact absurd ha (he ▸ by decide)
      · exact absurd hb (he ▸ by decide)
    have hsplit : splitOnChar ':' (ds ++ ':' :: [a, b, ':', c, d]) = [ds, [a, b], [c, d]] := by
      rw [splitOnChar, splitOnCharAux_append ':' ds [a, b, ':', c, d] [] hds,
        show ([a, b, ':', c, d] : List Char) = [a, b] ++ ':' :: [c, d] from rfl,
        splitOnCharAux_append ':' [a, b] [c, d] [] hab,
        splitOnCharAux_not_mem ':' [c, d] [] hcd]
      simp
    have hab2 : ∀ x ∈ ([a, b] : List Char), x.isDigit = true := by
      intro x hx
      rcases List.mem_pair.mp hx with he | he <;> subst he <;> assumption
    have hcd2 : ∀ x ∈ ([c, d] : List Char), x.isDigit = true := by
      intro x hx
      rcases List.mem_pair.mp hx with he | he <;> subst he <;> assumption
    have hts : timeToSeconds (ds ++ ':' :: [a, b, ':', c, d]) =
        .ok (do pure ((← parseIntJS ds) * 3600 + (← parseIntJS [a, b]) * 60 +
          (← parseIntJS [c, d]))) := by
      unfold timeToSeconds
      rw [hsplit]
    rw [hts, parseIntJS_digits ds hne hdig, parseIntJS_digits [a, b] (by simp) hab2,
      parseIntJS_digits [c, d] (by simp) hcd2]
    refine ⟨(digitsVal ds : Int) * 3600 + (digitsVal [a, b] : Int) * 60 +
      (digitsVal [c, d] : Int), by simp, by positivity⟩

/-- C10 witness at the concrete accepted strings. -/
theorem c10_pattern_parses_witness :
    (timePat "1:05:30".toList = true ∧
        (∃ n : Int, timeToSeconds "1:05:30".toList = .ok (some n) ∧ 0 ≤ n)) ∧
      (timePat "2:15".toList = true ∧
        (∃ n : Int, timeToSeconds "2:15".toList = .ok (some n) ∧ 0 ≤ n)) :=
  ⟨⟨by decide, c10_pattern_parses _ (by decide)⟩,
    ⟨by decide, c10_pattern_parses _ (by decide)⟩⟩

/-- C1: a clip request whose parsed start time is at or after its parsed
end time, or whose duration exceeds 600 seconds, is answered with a
synchronous 400 validation error; no job id is allocated and the
Progress Store is returned unchanged. -/
theorem c1_reject_leaves_store_unchanged (urlOk : Bool) (freshId : String)
    (r : ClipRequest) (store : Store) (s e : Int)
    (hs : timeToSeconds r.start_time = .ok (some s))
    (he : timeToSeconds r.end_time = .ok (some e))
    (hbad : e ≤ s ∨ 600 < e - s) :
    (handleDownloadClip urlOk freshId r store).1.isValidation400 = true ∧
      (handleDownloadClip urlOk freshId r store).2.1 = store ∧
      (handleDownloadClip urlOk freshId r store).2.2 = none := by
  unfold handleDownloadClip
  split
  · exact ⟨rfl, rfl, rfl⟩
  · rw [hs, he]
    simp only [jsGE, jsSub, jsGT]
    rcases hbad with h | h
    · simp [decide_eq_true_eq, h, ClipResponse.isValidation400]
    · by_cases hle : e ≤ s
      · simp [hle, ClipResponse.isValidation400]
      · simp [hle, h, ClipResponse.isValidation400]

/-- C1 witness at a concrete rejected request. -/
theorem c1_reject_leaves_store_unchanged_witness :
    (timeToSeconds reqLate.start_time = .ok (some 20) ∧
        timeToSeconds reqLate.end_time = .ok (some 10) ∧
        ((10 : Int) ≤ 20 ∨ 600 < (10 : Int) - 20)) ∧
      ((handleDownloadClip true "clip_1" reqLate []).1.isValidation400 = true ∧
        (handleDownloadClip true "clip_1" reqLate []).2.1 = [] ∧
        (handleDownloadClip true "clip_1" reqLate []).2.2 = none) :=
  ⟨⟨rfl, rfl, by decide⟩,
    c1_reject_leaves_store_unchanged true "clip_1" reqLate [] 20 10 rfl rfl (by decide)⟩

theorem handle_accept (urlOk : Bool) (freshId : String)
    (r : ClipRequest) (store : Store) (s e : Int)
    (hurl : urlOk = true)
    (hp1 : timePat r.start_time = true) (hp2 : timePat r.end_time = true)
    (hs : timeToSeconds r.start_time = .ok (some s))
    (he : timeToSeconds r.end_time = .ok (some e))
    (hlt : s < e) (hle : e - s ≤ 600) :
    handleDownloadClip urlOk freshId r store =
      (.success freshId (freshId ++ ".mp4") ("/api/download-file/" ++ freshId ++ ".mp4"),
        store.set freshId startingRec, some freshId) := by
  unfold handleDownloadClip
  rw [hurl, hp1, hp2]
  simp only [Bool.and_self, Bool.true_and, Bool.not_true, Bool.false_eq_true, if_false]
  rw [hs, he]
  simp only [jsGE, jsSub, jsGT]
  have h1 : ¬ (e ≤ s) := not_le.mpr hlt
  have h2 : ¬ (600 < e - s) := not_lt.mpr hle
  simp only [h1, h2, decide_False, if_false, decide_eq_true_eq, if_neg h1, if_neg h2]
  simp

/-- C2: a clip request that passes validation is answered immediately
with a success body carrying the job id, the predicted filename and the
download URL, and right after the handler returns the Progress Store
maps that job id to a record with status `downloading`, progress `0`
and message `"Starting download..."`, with the background pipeline
spawned for that id. -/
theorem c2_accept_initializes_store (urlOk : Bool) (freshId : String)
    (r : ClipRequest) (store : Store) (s e : Int)
    (hurl : urlOk = true)
    (hp1 : timePat r.start_time = true) (hp2 : timePat r.end_time = true)
    (hs : timeToSeconds r.start_time = .ok (some s))
    (he : timeToSeconds r.end_time = .ok (some e))
    (hlt : s < e) (hle : e - s ≤ 600) :
    (handleDownloadClip urlOk freshId r store).1 =
        .success freshId (freshId ++ ".mp4") ("/api/download-file/" ++ freshId ++ ".mp4") ∧
      Store.get (handleDownloadClip urlOk freshId r store).2.1 freshId =
        some { status := .downloading, progress := 0, message := "Starting download..." } ∧
      (handleDownloadClip urlOk freshId r store).2.2 = some freshId := by
  rw [handle_accept urlOk freshId r store s e hurl hp1 hp2 hs he hlt hle]
  exact ⟨rfl, Store.get_set_self store freshId startingRec, rfl⟩

/-- C2 witness at a concrete valid request. -/
theorem c2_accept_initializes_store_witness :
    (timePat reqGood.start_time = true ∧ timePat reqGood.end_time = true ∧
        timeToSeconds reqGood.start_time = .ok (some 10) ∧
        timeToSeconds reqGood.end_time = .ok (some 40) ∧
        (10 : Int) < 40 ∧ (40 : Int) - 10 ≤ 600) ∧
      ((handleDownloadClip true "clip_1" reqGood []).1 =
          .success "clip_1" "clip_1.mp4" "/api/download-file/clip_1.mp4" ∧
        Store.get (handleDownloadClip true "clip_1" reqGood []).2.1 "clip_1" =
          some { status := .downloading, progress := 0, message := "Starting download..." } ∧
        (handleDownloadClip true "clip_1" reqGood []).2.2 = some "clip_1") :=
  ⟨⟨by decide, by decide, rfl, rfl, by decide, by decide⟩,
    c2_accept_initializes_store true "clip_1" reqGood [] 10 40 rfl (by decide) (by decide)
      rfl rfl (by decide) (by decide)⟩

theorem deliveries_filter (msg : WsMsg) (obs : Observer) (ho : obs.isOpen = true) :
    ∀ s : List Observer, s.Nodup → obs ∈ s →
      ((s.filter (·.isOpen)).map (fun w => (w, msg))).filter (fun dv => dv.1 = obs) =
        [(obs, msg)] := by
  intro s
  induction s with
  | nil => intro _ hm; cases hm
  | cons a t ih =>
    intro hnd hm
    rcases List.mem_cons.mp hm with he | hmt
    · subst he
      have hnt : obs ∉ t := (List.nodup_cons.mp hnd).1
      rw [List.filter_cons, if_pos (by simp [ho]), List.map_cons, List.filter_cons,
        if_pos (by simp)]
      have hrest : ((t.filter (·.isOpen)).map (fun w => (w, msg))).filter
          (fun dv => dv.1 = obs) = [] := by
        rw [List.filter_eq_nil_iff]
        intro dv hdv
        obtain ⟨w, hw, hwd⟩ := List.mem_map.mp hdv
        have hwt : w ∈ t := List.mem_of_mem_filter hw
        subst hwd
        simp only [decide_eq_true_eq]
        exact fun he => hnt (he ▸ hwt)
      rw [hrest]
    · have hne : obs ≠ a := fun he => (List.nodup_cons.mp hnd).1 (he ▸ hmt)
      by_cases hao : a.isOpen = true
      · rw [List.filter_cons, if_pos (by simp [hao]), List.map_cons, List.filter_cons,
          if_neg (by simp [Ne.symm hne])]
        exact ih (List.nodup_cons.mp hnd).2 hmt
      · rw [List.filter_cons, if_neg (by simp [hao])]
        exact ih (List.nodup_cons.mp hnd).2 hmt

theorem clientsGet_removeFrom (cl : Clients) (id : String) (w : Observer) :
    Clients.get (Clients.removeFrom cl id w) id =
      (Clients.get cl id).map (fun s => s.filter (· ≠ w)) := by
  induction cl with
  | nil => simp [Clients.removeFrom, Clients.get]
  | cons hd tl ih =>
    obtain ⟨k, s⟩ := hd
    by_cases hk : k = id
    · subst hk; simp [Clients.removeFrom, Clients.get]
    · simp [Clients.removeFrom, Clients.get, hk, ih]

/-- C5: for every publish on a job id, every observer attached at publish
time with an open connection receives the current record exactly once;
an observer not attached receives nothing; observers with closed
connections are silently skipped; a publish with no attached observer
set is a no-op; and an observer detached before the publish receives
nothing. -/
theorem c5_publish_delivery (store : Store) (cl : Clients) (id : String) :
    (∀ rec s obs, store.get id = some rec → Clients.get cl id = some s → s.Nodup →
        obs ∈ s → obs.isOpen = true →
        (broadcastProgress store cl id).filter (fun dv => dv.1 = obs) =
          [(obs, { msgType := "progress", download_id := id, data := rec })]) ∧
      (∀ s obs m, Clients.get cl id = some s → obs ∉ s →
        (obs, m) ∉ broadcastProgress store cl id) ∧
      (∀ obs m, obs.isOpen = false → (obs, m) ∉ broadcastProgress store cl id) ∧
      (Clients.get cl id = none → broadcastProgress store cl id = []) ∧
      (∀ obs m, (obs, m) ∉ broadcastProgress store (wsClose cl (some id) obs) id) := by
  refine ⟨?_, ?_, ?_, ?_, ?_⟩
  · intro rec s obs hrec hcl hnd hm ho
    have hb : broadcastProgress store cl id =
        (s.filter (·.isOpen)).map
          (fun w => (w, { msgType := "progress", download_id := id, data := rec })) := by
      unfold broadcastProgress
      rw [hrec, hcl]
    rw [hb]
    exact deliveries_filter _ obs ho s hnd hm
  · intro s obs m hcl hnm hmem
    unfold broadcastProgress at hmem
    cases hrec : store.get id with
    | none => rw [hrec] at hmem; cases hmem
    | some rec =>
      rw [hrec, hcl] at hmem
      obtain ⟨w, hw, hwd⟩ := List.mem_map.mp hmem
      have hwt : w ∈ s := List.mem_of_mem_filter hw
      cases hwd
      exact hnm hwt
  · intro obs m ho hmem
    unfold broadcastProgress at hmem
    cases hrec : store.get id with
    | none => rw [hrec] at hmem; cases hmem
    | some rec =>
      rw [hrec] at hmem
      cases hcl : Clients.get cl id with
      | none => rw [hcl] at hmem; cases hmem
      | some s =>
        rw [hcl] at hmem
        obtain ⟨w, hw, hwd⟩ := List.mem_map.mp hmem
        have hop : w.isOpen = true := by
          have := List.of_mem_filter hw
          simpa using this
        cases hwd
        rw [ho] at hop
        exact Bool.false_ne_true hop
  · intro hcl
    unfold broadcastProgress
    cases hrec : store.get id with
    | none => rfl
    | some rec => rw [hcl]
  · intro obs m hmem
    unfold broadcastProgress at hmem
    cases hrec : store.get id with
    | none => rw [hrec] at hmem; cases hmem
    | some rec =>
      rw [hrec] at hmem
      have hget : Clients.get (wsClose cl (some id) obs) id =
          (Clients.get cl id).map (fun s => s.filter (· ≠ obs)) := by
        unfold wsClose
        exact clientsGet_removeFrom cl id obs
      cases hcl : Clients.get cl id with
      | none => rw [hget, hcl] at hmem; cases hmem
      | some s =>
        rw [hget, hcl] at hmem
        obtain ⟨w, hw, hwd⟩ := List.mem_map.mp hmem
        have hws : w ∈ s.filter (· ≠ obs) := List.mem_of_mem_filter hw
        have hne : w ≠ obs := by
          have := List.of_mem_filter hws
          simpa using this
        cases hwd
        exact hne rfl

/-- C5 witness at a concrete store and clients table. -/
theorem c5_publish_delivery_witness :
    (storeJ.get "j" = some startingRec ∧
        Clients.get clientsJ "j" = some [obsOpen, obsClosed] ∧
        ([obsOpen, obsClosed] : List Observer).Nodup ∧
        obsOpen ∈ ([obsOpen, obsClosed] : List Observer) ∧ obsOpen.isOpen = true ∧
        obsClosed.isOpen = false) ∧
      ((broadcastProgress storeJ clientsJ "j").filter (fun dv => dv.1 = obsOpen) =
          [(obsOpen, { msgType := "progress", download_id := "j", data := startingRec })] ∧
        (obsClosed, { msgType := "progress", download_id := "j", data := startingRec }) ∉
          broadcastProgress storeJ clientsJ "j" ∧
        broadcastProgress storeJ [] "j" = [] ∧
        (obsOpen, { msgType := "progress", download_id := "j", data := startingRec }) ∉
          broadcastProgress storeJ (wsClose clientsJ (some "j") obsOpen) "j") :=
  ⟨⟨rfl, rfl, by simp [obsOpen, obsClosed], by simp, rfl, rfl⟩,
    (c5_publish_delivery storeJ clientsJ "j").1 startingRec [obsOpen, obsClosed] obsOpen
      rfl rfl (by simp [obsOpen, obsClosed]) (by simp) rfl,
    (c5_publish_delivery storeJ clientsJ "j").2.2.1 obsClosed _ rfl,
    (c5_publish_delivery storeJ ([] : Clients) "j").2.2.2.1 rfl,
    (c5_publish_delivery storeJ clientsJ "j").2.2.2.2 obsOpen _⟩

theorem pipelineTail_ok (id : String) (env : PipeEnv) (h : env.dlResult = .exited 0) :
    pipelineTail id env =
      [.setStore id processingRec, .publish id,
       .setStore id cuttingRec, .publish id] ++ cutActions id env := by
  unfold pipelineTail
  rw [h]
  rfl

theorem pipelineTail_fail (id : String) (env : PipeEnv) (h : env.dlResult ≠ .exited 0) :
    pipelineTail id env =
      [.setStore id (errRec (dlFailMsg env.dlResult)), .publish id] := by
  unfold pipelineTail
  split
  · rename_i heq
    exact absurd heq h
  · rfl

theorem cutActions_ok (id : String) (env : PipeEnv)
    (h : ffmpegOutcome env.cutResult env.cutRetryCode = .ok ()) :
    cutActions id env = [.setStore id (doneRec id), .publish id] := by
  unfold cutActions
  rw [h]

theorem cutActions_error (id : String) (env : PipeEnv) (m : String)
    (h : ffmpegOutcome env.cutResult env.cutRetryCode = .error m) :
    cutActions id env = [.setStore id (errRec m), .publish id] := by
  unfold cutActions
  rw [h]

theorem dlEvents_split (id : String) (l1 l2 : List (List Char)) (line : List Char)
    (d : Decimal) (hp : extractPercent line = some d) :
    dlEvents id (l1 ++ line :: l2) =
      dlEvents id l1 ++
        ([Action.setStore id (dlRec d), Action.publish id] ++ dlEvents id l2) := by
  unfold dlEvents
  rw [List.flatMap_append, List.flatMap_cons, hp]

/-- C7: for every percentage `p` reported by the downloader during the
download stage, the pipeline writes the record with status
`downloading` and progress `min ⌊p * 0.5⌋ 50` and immediately
publishes; and when the download stage completes successfully the
record `{processing, 50, "Processing video..."}` is written and
published. -/
theorem c7_download_stage_writes (id : String) (env : PipeEnv) (line : List Char)
    (d : Decimal) (hl : line ∈ env.dlLines) (hp : extractPercent line = some d) :
    (∃ pre post, runPipeline id env =
        pre ++ [Action.setStore id (dlRecSpec d), Action.publish id] ++ post) ∧
      (env.dlResult = .exited 0 →
        ∃ pre post, runPipeline id env =
          pre ++ [Action.setStore id processingRec, Action.publish id] ++ post) := by
  constructor
  · obtain ⟨l1, l2, hsplit⟩ := List.append_of_mem hl
    refine ⟨dlEvents id l1, dlEvents id l2 ++ pipelineTail id env, ?_⟩
    have hrec : dlRecSpec d = dlRec d := by
      unfold dlRecSpec dlRec
      rw [Decimal.floorHalf_eq]
    rw [hrec, runPipeline, hsplit, dlEvents_split id l1 l2 line d hp]
    simp [List.append_assoc]
  · intro h0
    refine ⟨dlEvents id env.dlLines,
      [Action.setStore id cuttingRec, Action.publish id] ++ cutActions id env, ?_⟩
    rw [runPipeline, pipelineTail_ok id env h0]
    simp [List.append_assoc]

/-- C7 witness at a concrete environment and stderr chunk. -/
theorem c7_download_stage_writes_witness :
    (line90 ∈ envOk.dlLines ∧ extractPercent line90 = some ⟨90, ['0']⟩ ∧
        envOk.dlResult = .exited 0) ∧
      ((∃ pre post, runPipeline "j" envOk =
          pre ++ [Action.setStore "j" (dlRecSpec ⟨90, ['0']⟩), Action.publish "j"] ++ post) ∧
        (envOk.dlResult = .exited 0 →
          ∃ pre post, runPipeline "j" envOk =
            pre ++ [Action.setStore "j" processingRec, Action.publish "j"] ++ post)) :=
  ⟨⟨by decide, by decide, rfl⟩,
    c7_download_stage_writes "j" envOk line90 ⟨90, ['0']⟩ (by decide) (by decide)⟩

/-- C6: any failure of the download stage, or of the cut stage after its
internal re-encode retry, ends the pipeline with a write of
`{error, 0, <failure message>}` followed by a publish; the failure never
reaches the HTTP caller, whose response is the success body computed at
submission time, independent of the pipeline's environment. -/
theorem c6_failure_absorbed (id : String) (env : PipeEnv) (msg : String)
    (urlOk : Bool) (freshId : String) (r : ClipRequest) (store : Store) (s e : Int)
    (hfail : (env.dlResult ≠ .exited 0 ∧ msg = dlFailMsg env.dlResult) ∨
      (env.dlResult = .exited 0 ∧
        ffmpegOutcome env.cutResult env.cutRetryCode = .error msg))
    (hurl : urlOk = true)
    (hp1 : timePat r.start_time = true) (hp2 : timePat r.end_time = true)
    (hs : timeToSeconds r.start_time = .ok (some s))
    (he : timeToSeconds r.end_time = .ok (some e))
    (hlt : s < e) (hle : e - s ≤ 600) :
    (∃ pre, runPipeline id env =
        pre ++ [Action.setStore id { status := .error, progress := 0, message := msg }, Action.publish id]) ∧
      (handleDownloadClip urlOk freshId r store).1 =
        .success freshId (freshId ++ ".mp4") ("/api/download-file/" ++ freshId ++ ".mp4") := by
  constructor
  · rcases hfail with ⟨hne, hmsg⟩ | ⟨h0, herr⟩
    · refine ⟨dlEvents id env.dlLines, ?_⟩
      rw [runPipeline, pipelineTail_fail id env hne, hmsg]
      rfl
    · refine ⟨dlEvents id env.dlLines ++
        [Action.setStore id processingRec, Action.publish id,
         Action.setStore id cuttingRec, Action.publish id], ?_⟩
      rw [runPipeline, pipelineTail_ok id env h0, cutActions_error id env msg herr]
      simp [errRec, List.append_assoc]
  · rw [handle_accept urlOk freshId r store s e hurl hp1 hp2 hs he hlt hle]

/-- C6 witness: a failing download and a failing cut, on a concrete
valid request. -/
theorem c6_failure_absorbed_witness :
    ((envDlFail.dlResult ≠ .exited 0 ∧
        "Download failed with code 1" = dlFailMsg envDlFail.dlResult) ∧
      (envCutFail.dlResult = .exited 0 ∧
        ffmpegOutcome envCutFail.cutResult envCutFail.cutRetryCode =
          .error "FFmpeg failed with code 2")) ∧
      ((∃ pre, runPipeline "j" envDlFail =
          pre ++ [Action.setStore "j" { status := .error, progress := 0, message := "Download failed with code 1" }, Action.publish "j"]) ∧
        (∃ pre, runPipeline "j" envCutFail =
          pre ++ [Action.setStore "j" { status := .error, progress := 0, message := "FFmpeg failed with code 2" }, Action.publish "j"]) ∧
        (handleDownloadClip true "clip_1" reqGood []).1 =
          .success "clip_1" "clip_1.mp4" "/api/download-file/clip_1.mp4") :=
  ⟨⟨⟨by decide, rfl⟩, ⟨rfl, rfl⟩⟩,
    (c6_failure_absorbed "j" envDlFail "Download failed with code 1" true "clip_1" reqGood
      [] 10 40 (Or.inl ⟨by decide, rfl⟩) rfl (by decide) (by decide) rfl rfl (by decide)
      (by decide)).1,
    (c6_failure_absorbed "j" envCutFail "FFmpeg failed with code 2" true "clip_1" reqGood
      [] 10 40 (Or.inr ⟨rfl, rfl⟩) rfl (by decide) (by decide) rfl rfl (by decide)
      (by decide)).1,
    (c6_failure_absorbed "j" envDlFail "Download failed with code 1" true "clip_1" reqGood
      [] 10 40 (Or.inl ⟨by decide, rfl⟩) rfl (by decide) (by decide) rfl rfl (by decide)
      (by decide)).2⟩

theorem dlEvents_mem (id : String) (lines : List (List Char)) (a : Action)
    (ha : a ∈ dlEvents id lines) :
    (∃ p, a = Action.setStore id (dlRec p)) ∨ a = Action.publish id := by
  unfold dlEvents at ha
  obtain ⟨l, _, hal⟩ := List.mem_flatMap.mp ha
  cases hp : extractPercent l with
  | some p =>
    rw [hp] at hal
    rcases List.mem_cons.mp hal with he | he
    · exact Or.inl ⟨p, he⟩
    · rcases List.mem_cons.mp he with he2 | he2
      · exact Or.inr he2
      · cases he2
  | none =>
    rw [hp] at hal
    cases hal

theorem fullTrace_shape (id : String) (env : PipeEnv) :
    ∃ mid fin, fullTrace id env = mid ++ [Action.setStore id fin, Action.publish id] ∧
      ∀ rec, Action.setStore id rec ∈ mid → rec.status.isTerminal = false := by
  have hmem₀ : ∀ rec, (Action.setStore id rec = Action.setStore id startingRec →
      rec.status.isTerminal = false) := by
    intro rec h
    injection h with _ h2
    rw [h2]
    rfl
  by_cases h0 : env.dlResult = .exited 0
  · have hmid : ∀ rec, Action.setStore id rec ∈
        Action.setStore id startingRec :: dlEvents id env.dlLines ++
          [Action.setStore id processingRec, Action.publish id,
           Action.setStore id cuttingRec, Action.publish id] →
        rec.status.isTerminal = false := by
      intro rec hm
      rcases List.mem_cons.mp hm with he | hm2
      · exact hmem₀ rec he
      rcases List.mem_append.mp hm2 with hdl | hrest
      · rcases dlEvents_mem id env.dlLines _ hdl with ⟨p, hp⟩ | hp
        · injection hp with _ h2
          rw [h2]
          rfl
        · cases hp
      · rcases List.mem_cons.mp hrest with he | he
        · injection he with _ h2; rw [h2]; rfl
        rcases List.mem_cons.mp he with he2 | he2
        · cases he2
        rcases List.mem_cons.mp he2 with he3 | he3
        · injection he3 with _ h2; rw [h2]; rfl
        rcases List.mem_cons.mp he3 with he4 | he4
        · cases he4
        · cases he4
    cases hcut : ffmpegOutcome env.cutResult env.cutRetryCode with
    | ok u =>
      refine ⟨Action.setStore id startingRec :: dlEvents id env.dlLines ++
        [Action.setStore id processingRec, Action.publish id,
         Action.setStore id cuttingRec, Action.publish id], doneRec id, ?_, hmid⟩
      rw [fullTrace, runPipeline, pipelineTail_ok id env h0,
        cutActions_ok id env (by rw [hcut])]
      simp [List.append_assoc]
    | error m =>
      refine ⟨Action.setStore id startingRec :: dlEvents id env.dlLines ++
        [Action.setStore id processingRec, Action.publish id,
         Action.setStore id cuttingRec, Action.publish id], errRec m, ?_, hmid⟩
      rw [fullTrace, runPipeline, pipelineTail_ok id env h0,
        cutActions_error id env m hcut]
      simp [List.append_assoc]
  · refine ⟨Action.setStore id startingRec :: dlEvents id env.dlLines,
      errRec (dlFailMsg env.dlResult), ?_, ?_⟩
    · rw [fullTrace, runPipeline, pipelineTail_fail id env h0]
      simp
    · intro rec hm
      rcases List.mem_cons.mp hm with he | hdl
      · exact hmem₀ rec he
      · rcases dlEvents_mem id env.dlLines _ hdl with ⟨p, hp⟩ | hp
        · injection hp with _ h2
          rw [h2]
          rfl
        · cases hp

/-- C4: once a job's record has entered a terminal state (`completed` or
`error`), no later store write for that job occurs in the trace: any
write found at a position strictly after a terminal write is
impossible, i.e. every write position is at or before the terminal
write's position. -/
theorem c4_terminal_is_last_write (id : String) (env : PipeEnv) (i j : Nat)
    (rec rec2 : ProgressRec)
    (hi : (fullTrace id env)[i]? = some (Action.setStore id rec))
    (ht : rec.status.isTerminal = true)
    (hj : (fullTrace id env)[j]? = some (Action.setStore id rec2)) : j ≤ i := by
  obtain ⟨mid, fin, heq, hmid⟩ := fullTrace_shape id env
  rw [heq] at hi hj
  have key : ∀ (k : Nat) (q : ProgressRec),
      (mid ++ [Action.setStore id fin, Action.publish id])[k]? =
        some (Action.setStore id q) →
      k = mid.length ∨ (k < mid.length ∧ Action.setStore id q ∈ mid) := by
    intro k q hk
    by_cases hlt : k < mid.length
    · right
      refine ⟨hlt, ?_⟩
      rw [List.getElem?_append_left hlt] at hk
      exact List.getElem?_mem hk
    · left
      push_neg at hlt
      rw [List.getElem?_append_right hlt] at hk
      have hk2 : k - mid.length < 2 := by
        obtain ⟨hl2, _⟩ := List.getElem?_eq_some_iff.mp hk
        simpa using hl2
      rcases hm : k - mid.length with _ | n
      · omega
      · rw [hm] at hk
        rcases n with _ | n2
        · simp at hk
        · omega
  rcases key i rec hi with hI | ⟨_, hImem⟩
  · rcases key j rec2 hj with hJ | ⟨hJlt, _⟩ <;> omega
  · rw [hmid rec hImem] at ht
    exact absurd ht (by simp)

/-- C4 witness: in a concrete failing run, the write found before the
terminal error write is indeed at an earlier position. -/
theorem c4_terminal_is_last_write_witness :
    ((fullTrace "j" envDlFail)[3]? =
        some (Action.setStore "j" (errRec "Download failed with code 1")) ∧
      (errRec "Download failed with code 1").status.isTerminal = true ∧
      (fullTrace "j" envDlFail)[0]? = some (Action.setStore "j" startingRec)) ∧
      (0 : Nat) ≤ 3 :=
  ⟨⟨by decide, by decide, by decide⟩,
    c4_terminal_is_last_write "j" envDlFail 3 0 (errRec "Download failed with code 1")
      startingRec (by decide) (by decide) (by decide)⟩

theorem values_cons_start (id : String) (t : List Action) :
    nonErrorProgressValues (Action.setStore id startingRec :: t) =
      0 :: nonErrorProgressValues t := rfl

theorem values_append (t1 t2 : List Action) :
    nonErrorProgressValues (t1 ++ t2) =
      nonErrorProgressValues t1 ++ nonErrorProgressValues t2 := by
  unfold nonErrorProgressValues
  exact List.filterMap_append t1 t2 _

theorem values_dlEvents (id : String) (lines : List (List Char)) :
    nonErrorProgressValues (dlEvents id lines) =
      (lines.filterMap extractPercent).map (fun p => min p.floorHalf 50) := by
  induction lines with
  | nil => rfl
  | cons l ls ih =>
    have hsplit : dlEvents id (l :: ls) =
        (match extractPercent l with
         | some p => [Action.setStore id (dlRec p), Action.publish id]
         | none => []) ++ dlEvents id ls := by
      unfold dlEvents
      rw [List.flatMap_cons]
    rw [hsplit, values_append, ih, List.filterMap_cons]
    cases hp : extractPercent l with
    | some p => rfl
    | none => rfl

theorem pipelineTail_mem (id : String) (env : PipeEnv) (a : Action)
    (ha : a ∈ pipelineTail id env) :
    a = Action.publish id ∨ a = Action.setStore id processingRec ∨
      a = Action.setStore id cuttingRec ∨ a = Action.setStore id (doneRec id) ∨
      ∃ m, a = Action.setStore id (errRec m) := by
  by_cases h0 : env.dlResult = .exited 0
  · rw [pipelineTail_ok id env h0] at ha
    rcases List.mem_append.mp ha with h4 | hcut
    · rcases List.mem_cons.mp h4 with he | h4b
      · exact Or.inr (Or.inl he)
      rcases List.mem_cons.mp h4b with he | h4c
      · exact Or.inl he
      rcases List.mem_cons.mp h4c with he | h4d
      · exact Or.inr (Or.inr (Or.inl he))
      rcases List.mem_cons.mp h4d with he | h4e
      · exact Or.inl he
      · cases h4e
    · cases hcut2 : ffmpegOutcome env.cutResult env.cutRetryCode with
      | ok u =>
        rw [cutActions_ok id env (by rw [hcut2])] at hcut
        rcases List.mem_cons.mp hcut with he | hb
        · exact Or.inr (Or.inr (Or.inr (Or.inl he)))
        rcases List.mem_cons.mp hb with he | hb2
        · exact Or.inl he
        · cases hb2
      | error m =>
        rw [cutActions_error id env m hcut2] at hcut
        rcases List.mem_cons.mp hcut with he | hb
        · exact Or.inr (Or.inr (Or.inr (Or.inr ⟨m, he⟩)))
        rcases List.mem_cons.mp hb with he | hb2
        · exact Or.inl he
        · cases hb2
  · rw [pipelineTail_fail id env h0] at ha
    rcases List.mem_cons.mp ha with he | hb
    · exact Or.inr (Or.inr (Or.inr (Or.inr ⟨dlFailMsg env.dlResult, he⟩)))
    rcases List.mem_cons.mp hb with he | hb2
    · exact Or.inl he
    · cases hb2

theorem fullTrace_writes (id : String) (env : PipeEnv) (rec : ProgressRec)
    (hm : Action.setStore id rec ∈ fullTrace id env) :
    rec = startingRec ∨ (∃ p, rec = dlRec p) ∨ rec = processingRec ∨
      rec = cuttingRec ∨ rec = doneRec id ∨ ∃ m, rec = errRec m := by
  rcases List.mem_cons.mp hm with he | hm2
  · injection he with _ h2
    exact Or.inl h2
  rcases List.mem_append.mp hm2 with hdl | htail
  · rcases dlEvents_mem id env.dlLines _ hdl with ⟨p, hp⟩ | hp
    · injection hp with _ h2
      exact Or.inr (Or.inl ⟨p, h2⟩)
    · cases hp
  · rcases pipelineTail_mem id env _ htail with he | he | he | he | ⟨m, he⟩
    · cases he
    · injection he with _ h2
      exact Or.inr (Or.inr (Or.inl h2))
    · injection he with _ h2
      exact Or.inr (Or.inr (Or.inr (Or.inl h2)))
    · injection he with _ h2
      exact Or.inr (Or.inr (Or.inr (Or.inr (Or.inl h2))))
    · injection he with _ h2
      exact Or.inr (Or.inr (Or.inr (Or.inr (Or.inr ⟨m, h2⟩))))

theorem chain_zero_map (ps : List Decimal)
    (hmono : List.Chain' (fun d e => d.decLe e = true) ps) :
    List.Chain' (· ≤ ·) ((0 : Int) :: ps.map (fun p => min p.floorHalf 50)) := by
  rw [List.chain'_cons']
  constructor
  · intro y hy
    obtain ⟨p, _, hp⟩ := List.mem_map.mp (List.mem_of_mem_head? hy)
    exact hp ▸ le_min p.floorHalf_nonneg (by norm_num)
  · exact List.chain'_map_of_chain' _
      (fun a b hab =>
        min_le_min (Decimal.floorHalf_mono ((Decimal.decLe_iff a b).mp hab)) le_rfl)
      hmono

theorem zero_map_le_50 (ps : List Decimal) :
    ∀ x ∈ (0 : Int) :: ps.map (fun p => min p.floorHalf 50), x ≤ 50 := by
  intro x hx
  rcases List.mem_cons.mp hx with he | hmap
  · omega
  · obtain ⟨p, _, hp⟩ := List.mem_map.mp hmap
    exact hp ▸ min_le_right _ _

/-- C3 counterexample: in a run whose downloader reports 90% and then
10% (as yt-dlp does when it downloads the video and audio streams one
after the other), the non-`error` progress writes are
`[0, 45, 5, 50, 60, 100]`, which is not non-decreasing — the claim's
monotonicity conjunct is false as stated. -/
theorem c3_counterexample :
    ¬ List.Chain' (· ≤ ·) (nonErrorProgressValues (fullTrace "j" envDown)) := by
  have h : nonErrorProgressValues (fullTrace "j" envDown) = [0, 45, 5, 50, 60, 100] := by
    decide
  rw [h]
  intro hc
  rw [List.chain'_cons, List.chain'_cons] at hc
  have h45 := hc.2.1
  norm_num at h45

/-- C3 amended: provided the percentages extracted from the downloader's
output are themselves non-decreasing, the sequence of progress values
written to non-`error` records is non-decreasing; unconditionally,
every write with status `downloading` has progress at most 50 and every
write has progress at most 100. -/
theorem c3_progress_monotone_capped (id : String) (env : PipeEnv) :
    (List.Chain' (fun d e : Decimal => d.decLe e = true)
        (env.dlLines.filterMap extractPercent) →
      List.Chain' (· ≤ ·) (nonErrorProgressValues (fullTrace id env))) ∧
      (∀ rec, Action.setStore id rec ∈ fullTrace id env →
        rec.status = .downloading → rec.progress ≤ 50) ∧
      (∀ rec, Action.setStore id rec ∈ fullTrace id env → rec.progress ≤ 100) := by
  refine ⟨?_, ?_, ?_⟩
  · intro hmono
    have hpre : nonErrorProgressValues (fullTrace id env) =
        ((0 : Int) :: (env.dlLines.filterMap extractPercent).map
          (fun p => min p.floorHalf 50)) ++ nonErrorProgressValues (pipelineTail id env) := by
      rw [show fullTrace id env =
          (Action.setStore id startingRec :: dlEvents id env.dlLines) ++ pipelineTail id env
          from rfl]
      rw [values_append, values_cons_start, values_dlEvents]
    by_cases h0 : env.dlResult = .exited 0
    · cases hcut : ffmpegOutcome env.cutResult env.cutRetryCode with
      | ok u =>
        have htv : nonErrorProgressValues (pipelineTail id env) = [50, 60, 100] := by
          rw [pipelineTail_ok id env h0, cutActions_ok id env (by rw [hcut])]
          rfl
        rw [hpre, htv]
        refine List.chain'_append.mpr ⟨chain_zero_map _ hmono, ?_, ?_⟩
        · rw [List.chain'_cons, List.chain'_cons]
          exact ⟨by norm_num, by norm_num, List.chain'_singleton _⟩
        · intro x hx y hy
          simp only [List.head?_cons, Option.mem_some_iff] at hy
          subst hy
          exact zero_map_le_50 _ x (List.mem_of_getLast?_eq_some hx)
      | error m =>
        have htv : nonErrorProgressValues (pipelineTail id env) = [50, 60] := by
          rw [pipelineTail_ok id env h0, cutActions_error id env m hcut]
          rfl
        rw [hpre, htv]
        refine List.chain'_append.mpr ⟨chain_zero_map _ hmono, ?_, ?_⟩
        · rw [List.chain'_cons]
          exact ⟨by norm_num, List.chain'_singleton _⟩
        · intro x hx y hy
          simp only [List.head?_cons, Option.mem_some_iff] at hy
          subst hy
          exact zero_map_le_50 _ x (List.mem_of_getLast?_eq_some hx)
    · have htv : nonErrorProgressValues (pipelineTail id env) = [] := by
        rw [pipelineTail_fail id env h0]
        rfl
      rw [hpre, htv, List.append_nil]
      exact chain_zero_map _ hmono
  · intro rec hm hst
    rcases fullTrace_writes id env rec hm with he | ⟨p, he⟩ | he | he | he | ⟨m, he⟩ <;>
      subst he
    · norm_num [startingRec]
    · exact min_le_right _ _
    · exact absurd hst (by decide)
    · exact absurd hst (by decide)
    · exact absurd hst (by simp [doneRec])
    · exact absurd hst (by simp [errRec])
  · intro rec hm
    rcases fullTrace_writes id env rec hm with he | ⟨p, he⟩ | he | he | he | ⟨m, he⟩ <;>
      subst he
    · norm_num [startingRec]
    · exact le_trans (min_le_right _ _) (by norm_num)
    · norm_num [processingRec]
    · norm_num [cuttingRec]
    · norm_num [doneRec]
    · norm_num [errRec]

/-- C3 amended-claim witness: the monotone-input implication discharged
at a concrete single-report environment, and the unconditional caps
exercised at the non-monotone environment of the counterexample. -/
theorem c3_progress_monotone_capped_witness :
    (List.Chain' (fun d e : Decimal => d.decLe e = true)
        (envOk.dlLines.filterMap extractPercent) ∧
      List.Chain' (· ≤ ·) (nonErrorProgressValues (fullTrace "j" envOk))) ∧
      ((∀ rec, Action.setStore "j" rec ∈ fullTrace "j" envDown →
          rec.status = .downloading → rec.progress ≤ 50) ∧
        (∀ rec, Action.setStore "j" rec ∈ fullTrace "j" envDown → rec.progress ≤ 100)) :=
  ⟨⟨by
      rw [show envOk.dlLines.filterMap extractPercent = [⟨90, ['0']⟩] from by decide]
      exact List.chain'_singleton _,
    (c3_progress_monotone_capped "j" envOk).1
      (by
        rw [show envOk.dlLines.filterMap extractPercent = [⟨90, ['0']⟩] from by decide]
        exact List.chain'_singleton _)⟩,
    (c3_progress_monotone_capped "j" envDown).2.1,
    (c3_progress_monotone_capped "j" envDown).2.2⟩

theorem splitAtGt_eq (cs : List Char) :
    ∀ p, splitAtGt cs = some p → cs = p.1 ++ '>' :: p.2 ∧ '>' ∉ p.1 := by
  induction cs with
  | nil => intro p h; simp [splitAtGt] at h
  | cons c rest ih =>
    intro p h
    rw [splitAtGt] at h
    by_cases hc : c = '>'
    · subst hc; simp at h; subst h; simp
    · simp only [hc, if_false, Option.map_eq_some'] at h
      obtain ⟨q, hq, hpq⟩ := h
      obtain ⟨he, hn⟩ := ih q hq
      subst hpq
      exact ⟨by simp [he], by simp [hn, Ne.symm hc]⟩

theorem splitAtGt_none (cs : List Char) (h : splitAtGt cs = none) : '>' ∉ cs := by
  induction cs with
  | nil => simp
  | cons c rest ih =>
    rw [splitAtGt] at h
    by_cases hc : c = '>'
    · rw [if_pos hc] at h; cases h
    · rw [if_neg hc, Option.map_eq_none'] at h
      simp only [List.mem_cons, not_or]
      exact ⟨fun he => hc he.symm, ih h⟩

theorem removeTags_lt_some_empty (t : List Char) (p : List Char × List Char)
    (hsp : splitAtGt t = some p) (he : p.1.isEmpty = true) :
    removeTags ('<' :: t) = '<' :: removeTags t := by
  rw [removeTags, dif_pos rfl]
  split
  all_goals simp_all

theorem removeTags_lt_some_ne (t : List Char) (p : List Char × List Char)
    (hsp : splitAtGt t = some p) (he : ¬ p.1.isEmpty = true) :
    removeTags ('<' :: t) = removeTags p.2 := by
  rw [removeTags, dif_pos rfl]
  split
  all_goals simp_all

theorem removeTags_lt_none (t : List Char) (hsp : splitAtGt t = none) :
    removeTags ('<' :: t) = '<' :: removeTags t := by
  rw [removeTags, dif_pos rfl]
  split
  all_goals simp_all

theorem removeTags_cons_ne (c : Char) (t : List Char) (hc : ¬ c = '<') :
    removeTags (c :: t) = c :: removeTags t := by
  rw [removeTags, dif_neg hc]

theorem mem_removeTags (a : Char) : ∀ (cs : List Char), a ∈ removeTags cs → a ∈ cs := by
  intro cs
  induction cs using removeTags.induct with
  | case1 =>
    intro h
    simp [removeTags] at h
  | case2 t pr hsplit hempty ih =>
    intro hm
    rw [removeTags_lt_some_empty t pr hsplit hempty] at hm
    rcases List.mem_cons.mp hm with he | hm2
    · exact he ▸ List.mem_cons_self _ _
    · exact List.mem_cons_of_mem _ (ih hm2)
  | case3 t pr hsplit hempty ih =>
    intro hm
    rw [removeTags_lt_some_ne t pr hsplit hempty] at hm
    have hsub := (splitAtGt_eq t pr hsplit).1
    have : a ∈ t := by
      rw [hsub]
      exact List.mem_append_right _ (List.mem_cons_of_mem _ (ih hm))
    exact List.mem_cons_of_mem _ this
  | case4 t hsplit ih =>
    intro hm
    rw [removeTags_lt_none t hsplit] at hm
    rcases List.mem_cons.mp hm with he | hm2
    · exact he ▸ List.mem_cons_self _ _
    · exact List.mem_cons_of_mem _ (ih hm2)
  | case5 c t hc ih =>
    intro hm
    rw [removeTags_cons_ne c t hc] at hm
    rcases List.mem_cons.mp hm with he | hm2
    · exact he ▸ List.mem_cons_self _ _
    · exact List.mem_cons_of_mem _ (ih hm2)

theorem hasTag_gt_mem {l : List Char} (h : hasTag l) : '>' ∈ l := by
  obtain ⟨pre, inner, post, he, _, _⟩ := h
  rw [he]
  refine List.mem_append_right _ (List.mem_cons_of_mem _ ?_)
  exact List.mem_append_right _ (List.mem_cons_self _ _)

theorem hasTag_cons {c : Char} {l : List Char} (hc : ¬ c = '<') (h : hasTag (c :: l)) :
    hasTag l := by
  obtain ⟨pre, inner, post, he, hne, hni⟩ := h
  cases pre with
  | nil =>
    rw [List.nil_append] at he
    injection he with h1 _
    exact absurd h1 hc
  | cons p0 pre2 =>
    rw [List.cons_append] at he
    injection he with _ h2
    exact ⟨pre2, inner, post, h2, hne, hni⟩

theorem removeTags_no_tag : ∀ (cs : List Char), ¬ hasTag (removeTags cs) := by
  intro cs
  induction cs using removeTags.induct with
  | case1 =>
    rintro ⟨pre, inner, post, he, _, _⟩
    simp [removeTags] at he
  | case2 t pr hsplit hempty ih =>
    rw [removeTags_lt_some_empty t pr hsplit hempty]
    intro htag
    have ht : t = '>' :: pr.2 := by
      have := (splitAtGt_eq t pr hsplit).1
      rwa [List.isEmpty_iff.mp hempty, List.nil_append] at this
    obtain ⟨pre, inner, post, he, hne, hni⟩ := htag
    cases pre with
    | nil =>
      rw [List.nil_append] at he
      injection he with _ h2
      cases inner with
      | nil => exact hne rfl
      | cons i0 it =>
        rw [List.cons_append] at h2
        have hrt : removeTags t = '>' :: removeTags pr.2 := by
          rw [ht, removeTags_cons_ne _ _ (by decide)]
        rw [hrt] at h2
        injection h2 with h3 _
        exact hni (h3 ▸ List.mem_cons_self _ _)
    | cons p0 pre2 =>
      rw [List.cons_append] at he
      injection he with _ h2
      exact ih ⟨pre2, inner, post, h2, hne, hni⟩
  | case3 t pr hsplit hempty ih =>
    rw [removeTags_lt_some_ne t pr hsplit hempty]
    exact ih
  | case4 t hsplit ih =>
    rw [removeTags_lt_none t hsplit]
    intro htag
    have hgt : '>' ∈ removeTags t := by
      rcases List.mem_cons.mp (hasTag_gt_mem htag) with he | hm
      · cases he
      · exact hm
    exact splitAtGt_none t hsplit (mem_removeTags _ t hgt)
  | case5 c t hc ih =>
    rw [removeTags_cons_ne c t hc]
    exact fun htag => ih (hasTag_cons hc htag)

theorem keepFirsts_sublist (l : List (List Char)) : List.Sublist (keepFirsts l) l := by
  induction l using keepFirsts.induct with
  | case1 => simp [keepFirsts]
  | case2 a t ih =>
    rw [keepFirsts]
    exact (ih.trans (List.filter_sublist t)).cons₂ a

theorem keepFirsts_nodup (l : List (List Char)) : (keepFirsts l).Nodup := by
  induction l using keepFirsts.induct with
  | case1 => simp [keepFirsts]
  | case2 a t ih =>
    rw [keepFirsts]
    refine List.nodup_cons.mpr ⟨?_, ih⟩
    intro hmem
    have hf := (keepFirsts_sublist _).subset hmem
    simp at hf

theorem keepFirstsFrom_eq (l : List (List Char)) : ∀ seen,
    keepFirstsFrom seen l = keepFirsts (l.filter (fun x => decide (x ∉ seen))) := by
  induction l with
  | nil => intro seen; simp [keepFirstsFrom, keepFirsts]
  | cons a t ih =>
    intro seen
    rw [keepFirstsFrom]
    by_cases hmem : a ∈ seen
    · rw [if_pos hmem, ih seen, List.filter_cons, if_neg (by simp [hmem])]
    · rw [if_neg hmem, ih (seen ++ [a]), List.filter_cons, if_pos (by simp [hmem])]
      rw [keepFirsts]
      congr 1
      rw [List.filter_filter]
      congr 1
      apply List.filter_congr
      intro x _
      by_cases h1 : x ∈ seen <;> by_cases h2 : x = a <;>
        simp [h1, h2, List.mem_append]

theorem keepFirstsFrom_nil_eq (l : List (List Char)) :
    keepFirstsFrom [] l = keepFirsts l := by
  rw [keepFirstsFrom_eq l []]
  congr 1
  apply List.filter_eq_self.mpr
  intro a _
  simp

theorem subtitleLoop_eq_keepFirstsFrom :
    ∀ (ls : List (List Char)) (skip : Bool) (acc : List (List Char)),
      subtitleLoop ls skip acc = acc ++ keepFirstsFrom acc (subtitleCandidates ls skip) := by
  intro ls
  induction ls with
  | nil => intro skip acc; simp [subtitleLoop, subtitleCandidates, keepFirstsFrom]
  | cons l t ih =>
    intro skip acc
    by_cases h1 : (trimChars l).isEmpty
    · simp only [subtitleLoop, subtitleCandidates, if_pos h1]
      exact ih skip acc
    by_cases h2 : isSeqNum (trimChars l) = true
    · simp only [subtitleLoop, subtitleCandidates, if_neg h1, if_pos h2]
      exact ih true acc
    by_cases h3 : (containsArrow (trimChars l) || skip) = true
    · simp only [subtitleLoop, subtitleCandidates, if_neg h1, if_neg h2, if_pos h3]
      exact ih false acc
    by_cases h4 : isHeader (trimChars l) = true
    · simp only [subtitleLoop, subtitleCandidates, if_neg h1, if_neg h2, if_neg h3, if_pos h4]
      exact ih skip acc
    by_cases h5 : removeTags (trimChars l) = []
    · simp only [subtitleLoop, subtitleCandidates, if_neg h1, if_neg h2, if_neg h3, if_neg h4,
        if_pos h5, if_neg (show ¬ (removeTags (trimChars l) ≠ [] ∧
          removeTags (trimChars l) ∉ acc) from fun hcon => hcon.1 h5)]
      exact ih skip acc
    · by_cases hmem : removeTags (trimChars l) ∈ acc
      · simp only [subtitleLoop, subtitleCandidates, if_neg h1, if_neg h2, if_neg h3,
          if_neg h4, if_neg h5,
          if_neg (show ¬ (removeTags (trimChars l) ≠ [] ∧
            removeTags (trimChars l) ∉ acc) from fun hcon => hcon.2 hmem)]
        rw [ih skip acc, keepFirstsFrom, if_pos hmem]
      · simp only [subtitleLoop, subtitleCandidates, if_neg h1, if_neg h2, if_neg h3,
          if_neg h4, if_neg h5, if_pos (show removeTags (trimChars l) ≠ [] ∧
            removeTags (trimChars l) ∉ acc from ⟨h5, hmem⟩)]
        rw [ih skip (acc ++ [removeTags (trimChars l)]), keepFirstsFrom, if_neg hmem]
        simp

theorem subtitleCandidates_src :
    ∀ (ls : List (List Char)) (skip : Bool) (str : List Char),
      str ∈ subtitleCandidates ls skip →
      ∃ l ∈ ls, trimChars l ≠ [] ∧ isSeqNum (trimChars l) = false ∧
        containsArrow (trimChars l) = false ∧ isHeader (trimChars l) = false ∧
        str = removeTags (trimChars l) ∧ str ≠ [] := by
  intro ls
  induction ls with
  | nil => intro skip str h; cases h
  | cons l t ih =>
    intro skip str h
    by_cases h1 : (trimChars l).isEmpty
    · rw [subtitleCandidates, if_pos h1] at h
      obtain ⟨l2, hl2, hrest⟩ := ih skip str h
      exact ⟨l2, List.mem_cons_of_mem l hl2, hrest⟩
    by_cases h2 : isSeqNum (trimChars l) = true
    · rw [subtitleCandidates, if_neg h1, if_pos h2] at h
      obtain ⟨l2, hl2, hrest⟩ := ih true str h
      exact ⟨l2, List.mem_cons_of_mem l hl2, hrest⟩
    by_cases h3 : (containsArrow (trimChars l) || skip) = true
    · rw [subtitleCandidates, if_neg h1, if_neg h2, if_pos h3] at h
      obtain ⟨l2, hl2, hrest⟩ := ih false str h
      exact ⟨l2, List.mem_cons_of_mem l hl2, hrest⟩
    by_cases h4 : isHeader (trimChars l) = true
    · rw [subtitleCandidates, if_neg h1, if_neg h2, if_neg h3, if_pos h4] at h
      obtain ⟨l2, hl2, hrest⟩ := ih skip str h
      exact ⟨l2, List.mem_cons_of_mem l hl2, hrest⟩
    by_cases h5 : removeTags (trimChars l) = []
    · rw [subtitleCandidates, if_neg h1, if_neg h2, if_neg h3, if_neg h4, if_pos h5] at h
      obtain ⟨l2, hl2, hrest⟩ := ih skip str h
      exact ⟨l2, List.mem_cons_of_mem l hl2, hrest⟩
    · rw [subtitleCandidates, if_neg h1, if_neg h2, if_neg h3, if_neg h4, if_neg h5] at h
      rcases List.mem_cons.mp h with he | hmem
      · refine ⟨l, List.mem_cons_self l t, ?_, ?_, ?_, ?_, he, he ▸ h5⟩
        · intro hnil
          exact h1 (by simp [hnil])
        · exact Bool.eq_false_iff.mpr h2
        · have := Bool.or_eq_false_iff.mp (Bool.eq_false_iff.mpr h3)
          exact this.1
        · exact Bool.eq_false_iff.mpr h4
      · obtain ⟨l2, hl2, hrest⟩ := ih skip str hmem
        exact ⟨l2, List.mem_cons_of_mem l hl2, hrest⟩

/-- C8: the subtitle-to-text conversion retains only lines that are not
pure sequence numbers, contain no timing arrow and are not headers, with
markup tags removed (`removeTags`, whose output provably contains no
residual tag pattern); the retained lines are exactly the
first occurrences of the distinct cleaned lines in input order
(`keepFirsts` of the candidate stream) — in particular
immediately-repeated lines are collapsed (the output has no two equal
lines at all, hence none adjacent) and first-occurrence ordering is
preserved. -/
theorem c8_subtitle_conversion (content : List Char) :
    subtitleLoop (splitOnChar '\n' content) false [] =
        keepFirsts (subtitleCandidates (splitOnChar '\n' content) false) ∧
      (∀ str ∈ subtitleLoop (splitOnChar '\n' content) false [],
        ∃ l ∈ splitOnChar '\n' content, trimChars l ≠ [] ∧
          isSeqNum (trimChars l) = false ∧ containsArrow (trimChars l) = false ∧
          isHeader (trimChars l) = false ∧ str = removeTags (trimChars l) ∧ str ≠ []) ∧
      (∀ str ∈ subtitleLoop (splitOnChar '\n' content) false [], ¬ hasTag str) ∧
      List.Chain' (· ≠ ·) (subtitleLoop (splitOnChar '\n' content) false []) ∧
      (subtitleLoop (splitOnChar '\n' content) false []).Nodup ∧
      convertSubtitleToText content =
        List.intercalate ['\n'] (subtitleLoop (splitOnChar '\n' content) false []) := by
  have heq : subtitleLoop (splitOnChar '\n' content) false [] =
      keepFirsts (subtitleCandidates (splitOnChar '\n' content) false) := by
    rw [subtitleLoop_eq_keepFirstsFrom, keepFirstsFrom_nil_eq]
    rfl
  have hsrc : ∀ str ∈ subtitleLoop (splitOnChar '\n' content) false [],
      ∃ l ∈ splitOnChar '\n' content, trimChars l ≠ [] ∧
        isSeqNum (trimChars l) = false ∧ containsArrow (trimChars l) = false ∧
        isHeader (trimChars l) = false ∧ str = removeTags (trimChars l) ∧ str ≠ [] := by
    intro str hstr
    rw [heq] at hstr
    exact subtitleCandidates_src _ false str ((keepFirsts_sublist _).subset hstr)
  refine ⟨heq, hsrc, ?_, ?_, ?_, rfl⟩
  · intro str hstr
    obtain ⟨l, _, _, _, _, _, hrt, _⟩ := hsrc str hstr
    rw [hrt]
    exact removeTags_no_tag _
  · rw [heq]
    exact List.Pairwise.chain' (keepFirsts_nodup _)
  · rw [heq]
    exact keepFirsts_nodup _

end YTC
